import Mathlib

/-
Verification of the chessbonzibuddy analysis pipeline.

This file gives a shallow embedding of the analysis core of the repository:

  * `src/lib/analysis-utils.ts` — the shared pure math (win-probability
    transform, move classifier, accuracy estimator, rating estimator);
  * `src/app/api/games/[id]/analyze/route.ts` — the server-side analysis
    orchestrator (the `POST` handler body that replays the game, drives the
    engine once per ply, and emits the SSE progress/complete stream);
  * `StockfishEngine.parseEvaluation` / `ServerStockfishEngine.parseEvaluation`
    (identical in `src/lib/engine.ts` and the server engine) — the UCI
    output parser.

JavaScript `number` values are modelled as follows: centipawn evaluations,
depths and parsed integers are `Int`/`Nat` (the program only ever produces
integers for them — `parseInt` results and integer arithmetic on them);
the statistical quantities (win percents, accuracies) are idealized real
numbers `ℝ`, with JavaScript `Math.exp`, `Math.log`, `Math.sqrt`,
`Math.round` modelled by `Real.exp`, `Real.log`, `Real.sqrt` and
Mathlib's `round` (which equals `⌊x + 1/2⌋`, the same convention as
`Math.round`).  Game replay (chess.js) is an external collaborator of the
code under analysis, so the orchestrator embedding is parameterized by an
opaque board type, a `fen` projection, a move-application function and a
UCI→SAN converter, none of which affect the claims proved here.
-/

-- =========================================================================
-- Character-level utilities modelling the JavaScript string operations
-- used by `parseEvaluation` (String.prototype.startsWith / includes,
-- RegExp matching of the concrete patterns appearing in the source).
-- =========================================================================

/-- JS `\d` character class (ASCII digits). -/
def isDigitChar (c : Char) : Bool := c.isDigit

/-- JS `\s` character class, restricted to the whitespace that can occur in
UCI engine output (space, tab, CR, LF). -/
def isSpaceChar (c : Char) : Bool := c = ' ' || c = '\t' || c = '\r' || c = '\n'

/-- JS `\w` character class: `[A-Za-z0-9_]`. -/
def isWordChar (c : Char) : Bool := c.isAlphanum || c = '_'

/-- Whether `pat` occurs as a prefix of `s` (JS `startsWith`, and the
anchored part of a regex match attempt at one position). -/
def matchesAt : List Char → List Char → Bool
  | [], _ => true
  | _ :: _, [] => false
  | p :: ps, c :: cs => p == c && matchesAt ps cs

/-- JS `String.prototype.includes`. -/
def hasSubstr (pat : List Char) : List Char → Bool
  | [] => matchesAt pat []
  | c :: rest => matchesAt pat (c :: rest) || hasSubstr pat rest

/-- Value of a (non-empty) digit run, as `parseInt(digits, 10)` computes it. -/
def digitsToNat (ds : List Char) : ℕ :=
  ds.foldl (fun n c => 10 * n + (c.toNat - '0'.toNat)) 0

/-- Capture group `(\d+)`: a greedy non-empty digit run at the front of `s`. -/
def capDigits (s : List Char) : Option ℕ :=
  let ds := s.takeWhile isDigitChar
  if ds.isEmpty then none else some (digitsToNat ds)

/-- Capture group `(-?\d+)` at the front of `s`, as consumed by
`parseInt(match[1], 10)`. -/
def capSignedInt (s : List Char) : Option ℤ :=
  match s with
  | '-' :: rest => (capDigits rest).map (fun n => -(n : ℤ))
  | _ => (capDigits s).map (fun n => (n : ℤ))

/-- Scan left to right for the first position where the literal pattern
`pat` matches and the capture `cap` succeeds immediately after it.  This is
how a JS regex `literal(capture)` finds its match. -/
def scanCapture {α : Type} (pat : List Char) (cap : List Char → Option α) :
    List Char → Option α
  | [] => if matchesAt pat [] then cap [] else none
  | c :: rest =>
      match (if matchesAt pat (c :: rest) then cap ((c :: rest).drop pat.length) else none) with
      | some r => some r
      | none => scanCapture pat cap rest

/-- JS regex `new RegExp("\\b" + key + "\\s+(\\d+)")` applied to a line,
returning `parseInt(match[1], 10)`: find the first occurrence of `key` at a
word boundary that is followed by at least one whitespace character and then
at least one digit.  `prev` is the character preceding the current scan
position (`none` at the start of the string). -/
def extractIntAux (key : List Char) : Option Char → List Char → Option ℕ
  | prev, [] =>
      -- a non-empty key cannot match at the end of the string
      if matchesAt key [] && (match prev with | none => true | some c => !isWordChar c) then
        none
      else none
  | prev, c :: rest =>
      let boundary := match prev with | none => true | some p => !isWordChar p
      let attempt :=
        if boundary && matchesAt key (c :: rest) then
          let after := (c :: rest).drop key.length
          let ws := after.takeWhile isSpaceChar
          if ws.isEmpty then none
          else capDigits (after.drop ws.length)
        else none
      match attempt with
      | some n => some n
      | none => extractIntAux key (some c) rest

/-- `extractInt(line, key)` from the source: regex
`\b<key>\s+(\d+)` over the line, `parseInt` of the first capture, or `null`. -/
def extractInt (line : String) (key : String) : Option ℕ :=
  extractIntAux key.data none line.data

/-- JS `trim()`: strip whitespace from both ends. -/
def trimChars (s : List Char) : List Char :=
  ((s.dropWhile isSpaceChar).reverse.dropWhile isSpaceChar).reverse

/-- Maximal whitespace-free runs of a character list (used to model
`split(/\s+/)` on strings without leading or trailing whitespace). -/
def wsTokensAux : List Char → List Char → List (List Char)
  | [], cur => if cur.isEmpty then [] else [cur.reverse]
  | c :: rest, cur =>
      if isSpaceChar c then
        (if cur.isEmpty then [] else [cur.reverse]) ++ wsTokensAux rest []
      else wsTokensAux rest (c :: cur)

/-- JS `s.split(/\s+/)` for a string with no leading whitespace.  On the
empty string JS returns `[""]`; on a non-empty input the result is the list
of maximal whitespace-free runs (a trailing whitespace run contributes a
trailing `""` in JS, which is observationally irrelevant here because the
parser only reads index 1 with a `?? ""` fallback and splits only trimmed
strings otherwise). -/
def splitWsJS (s : List Char) : List String :=
  if s.isEmpty then [""] else (wsTokensAux s []).map (fun l => String.mk l)

-- =========================================================================
-- Engine output parser (`parseEvaluation`, identical in the client
-- `StockfishEngine` and the server `ServerStockfishEngine`).
-- =========================================================================

/-- Data model `EngineEvaluation` from `src/lib/engine.ts`: centipawn eval
from the White point of view, best move in UCI, principal variation, search
depth, and the mate distance (`null` when there is no forced mate). -/
structure EngineEvaluation where
  eval : ℤ
  bestMove : String
  pv : List String
  depth : ℕ
  mate : Option ℤ
deriving DecidableEq

/-- Mutable scan state of the `for (const line of infoLines)` loop inside
`parseEvaluation`: `bestEval`, `mate`, `pv`, `depth`. -/
structure EvalScan where
  bestEval : ℤ
  mate : Option ℤ
  pv : List String
  depth : ℕ
deriving DecidableEq

/-- Filter predicate for `infoLines`:
`l.startsWith("info") && l.includes("score")`. -/
def isScoreLine (l : String) : Bool :=
  matchesAt "info".data l.data && hasSubstr "score".data l.data

/-- Regex `/score cp (-?\d+)/` on a line. -/
def cpMatch (l : String) : Option ℤ :=
  scanCapture "score cp ".data capSignedInt l.data

/-- Regex `/score mate (-?\d+)/` on a line. -/
def mateMatch (l : String) : Option ℤ :=
  scanCapture "score mate ".data capSignedInt l.data

/-- Regex `/ pv (.+)/` on a line: everything after the first `" pv "`
(at least one character), then `trim()` and `split(/\s+/)` as the source
does with the capture. -/
def pvMatch (l : String) : Option (List String) :=
  (scanCapture " pv ".data
    (fun s => if s.isEmpty then none else some s) l.data).map
    (fun cap => splitWsJS (trimChars cap))

/-- Body of the `for (const line of infoLines)` loop of `parseEvaluation`:
skip the line when its depth does not parse or is below the running maximum;
otherwise take its depth and, in order of priority, a mate score (converted
to the sentinel centipawn value), else a cp score, and finally its pv. -/
def parseEvalStep (st : EvalScan) (line : String) : EvalScan :=
  match extractInt line "depth" with
  | none => st
  | some lineDepth =>
      if lineDepth < st.depth then st
      else
        let st1 : EvalScan := { st with depth := lineDepth }
        let st2 : EvalScan :=
          match mateMatch line with
          | some m =>
              { st1 with mate := some m,
                         bestEval := if m > 0 then 100000 - m else -100000 - m }
          | none =>
              match cpMatch line with
              | some c => { st1 with bestEval := c, mate := none }
              | none => st1
        match pvMatch line with
        | some moves => { st2 with pv := moves }
        | none => st2

/-- `parseEvaluation(lines)` from the source: walk the score-bearing info
lines most-recent-first, keep the deepest evaluation, and read the chosen
move from the `bestmove` line (empty when absent). -/
def parseEvaluation (lines : List String) : EngineEvaluation :=
  let infoLines := (lines.filter isScoreLine).reverse
  let scan := infoLines.foldl parseEvalStep ⟨0, none, [], 0⟩
  let bestMove :=
    match lines.find? (fun l => matchesAt "bestmove".data l.data) with
    | some l => (splitWsJS l.data).getD 1 ""
    | none => ""
  { eval := scan.bestEval, bestMove := bestMove, pv := scan.pv,
    depth := scan.depth, mate := scan.mate }

/-- Observer: a score-bearing info line is well formed when its depth, its
score (cp or mate) and its pv all parse. -/
def lineWF (l : String) : Bool :=
  (extractInt l "depth").isSome &&
  ((mateMatch l).isSome || (cpMatch l).isSome) &&
  (pvMatch l).isSome

/-- Observer: the centipawn value a line contributes when applied — the
mate sentinel `100000 - m` / `-100000 - m` when the line carries a mate
score, else its cp score (0 when neither parses). -/
def lineScore (l : String) : ℤ :=
  match mateMatch l with
  | some m => if m > 0 then 100000 - m else -100000 - m
  | none =>
      match cpMatch l with
      | some c => c
      | none => 0

/-- Observer: the pv token list a line contributes (empty when absent). -/
def linePv (l : String) : List String :=
  (pvMatch l).getD []

-- =========================================================================
-- Volatility window of `calculateAccuracy` (src/lib/analysis-utils.ts).
-- =========================================================================

/-- The `WINDOW` constant of `calculateAccuracy`. -/
def WINDOW : ℕ := 5

/-- The sliding-window slice taken by `calculateAccuracy` for the weight of
move `i`:
`winPercents.slice(Math.max(0, i - Math.floor(WINDOW / 2)), Math.min(n, i + Math.ceil(WINDOW / 2) + 1))`.
With `WINDOW = 5` these are `Math.floor(5 / 2) = 2` and
`Math.ceil(5 / 2) = 3`; natural-number subtraction realizes the
`Math.max(0, ·)`, and `(WINDOW + 1) / 2` realizes `Math.ceil(WINDOW / 2)`. -/
def volWindow {α : Type} (wps : List α) (i : ℕ) : List α :=
  let start := i - WINDOW / 2
  let stop := min wps.length (i + (WINDOW + 1) / 2 + 1)
  (wps.drop start).take (stop - start)

/-- Modelled from the spec: the centered 5-move sliding window around move
`i` that the spec (and the comment `window size = 5 moves` in the source)
describes — moves `i - 2` through `i + 2`, truncated at the boundaries of
the list. -/
def windowSpec5 {α : Type} (wps : List α) (i : ℕ) : List α :=
  let start := i - 2
  let stop := min wps.length (i + 2 + 1)
  (wps.drop start).take (stop - start)

-- =========================================================================
-- Shared analysis math (src/lib/analysis-utils.ts).
-- =========================================================================

/-- The `MoveClassification` union type from `src/lib/engine.ts`. -/
inductive MoveClassification where
  | brilliant
  | great
  | best
  | good
  | book
  | inaccuracy
  | mistake
  | blunder
deriving DecidableEq

/-- The side to move, `"w" | "b"` in the source. -/
inductive Color where
  | w
  | b
deriving DecidableEq

/-- Logistic regression constant `WIN_PERCENT_MULTIPLIER` from the source. -/
noncomputable def WIN_PERCENT_MULTIPLIER : ℝ := -0.00368208

/-- `cpToWinPercent(cp)`: convert a centipawn evaluation (White point of
view) to a win probability percentage for White. -/
noncomputable def cpToWinPercent (cp : ℝ) : ℝ :=
  let clamped := max (-10000) (min 10000 cp)
  let winningChances := 2 / (1 + Real.exp (WIN_PERCENT_MULTIPLIER * clamped)) - 1
  50 + 50 * winningChances

/-- `classifyMove(winPercentLoss, isBest)` from `src/lib/analysis-utils.ts`. -/
noncomputable def classifyMove (winPercentLoss : ℝ) (isBest : Bool) :
    MoveClassification :=
  if isBest then .best
  else if winPercentLoss ≤ 2 then .great
  else if winPercentLoss ≤ 5 then .good
  else if winPercentLoss ≤ 10 then .inaccuracy
  else if winPercentLoss ≤ 20 then .mistake
  else .blunder

/-- `moveAccuracy(winDiff)`: per-move accuracy, exponential decay on the
win-percent loss. -/
noncomputable def moveAccuracy (winDiff : ℝ) : ℝ :=
  if winDiff ≤ 0 then 100
  else
    let raw := 103.1668100711649 * Real.exp (-0.04354415386753951 * winDiff) -
      3.166924740191411
    max 0 (min 100 raw)

/-- `stddev(values)`: population standard deviation, `0` on fewer than two
values. -/
noncomputable def stddev (values : List ℝ) : ℝ :=
  if values.length < 2 then 0
  else
    let mean := values.foldl (fun a b => a + b) 0 / (values.length : ℝ)
    let variance :=
      (values.foldl (fun sum v => sum + (v - mean) ^ 2) 0) / (values.length : ℝ)
    Real.sqrt variance

/-- The per-move data of `MoveAnalysis` (src/lib/engine.ts).  `topLines`
entries are the `{ moves, eval }` pairs of the source. -/
structure MoveAnalysis where
  moveNumber : ℕ
  color : Color
  san : String
  uci : String
  evalBefore : ℤ
  evalAfter : ℤ
  bestMove : String
  bestMoveSan : String
  classification : MoveClassification
  topLines : List (List String × ℤ)

/-- `calculateAccuracy(moves)`: Lichess-style volatility-weighted accuracy
blend, exactly as in the source — per-move win percents and accuracies from
the moving player point of view, sliding-window volatility weights clamped
to `[0.5, 12]`, then `0.6 ×` weighted mean `+ 0.4 ×` harmonic mean of the
positive accuracies, rounded to one decimal. -/
noncomputable def calculateAccuracy (moves : List MoveAnalysis) : ℝ :=
  if moves.length = 0 then 100
  else
    let winPercents := moves.map (fun m =>
      let wpBefore := cpToWinPercent (m.evalBefore : ℝ)
      if m.color = Color.w then wpBefore else 100 - wpBefore)
    let accuracies := moves.map (fun m =>
      let wpBefore := cpToWinPercent (m.evalBefore : ℝ)
      let wpAfter := cpToWinPercent (m.evalAfter : ℝ)
      let winDiff :=
        if m.color = Color.w then wpBefore - wpAfter
        else (100 - wpBefore) - (100 - wpAfter)
      moveAccuracy winDiff)
    let weights := (List.range moves.length).map (fun i =>
      let windowWp := volWindow winPercents i
      let vol := stddev windowWp
      max 0.5 (min 12 vol))
    let weightedSum := ((accuracies.zip weights).map (fun p => p.1 * p.2)).foldl
      (fun a b => a + b) 0
    let totalWeight := weights.foldl (fun a b => a + b) 0
    let weightedMean := if totalWeight > 0 then weightedSum / totalWeight else 0
    let positives := accuracies.filter (fun a => decide (a > 0))
    let harmonicMean :=
      if positives.length > 0 then
        (positives.length : ℝ) / positives.foldl (fun sum a => sum + 1 / a) 0
      else 0
    let blended := weightedMean * 0.6 + harmonicMean * 0.4
    ((round (blended * 10) : ℤ) : ℝ) / 10

/-- `accuracyToRating(accuracy)`: map an accuracy percentage to an
approximate Elo rating.  The JS value `Math.round(bounded / 25) * 25` is an
integer, embedded as `ℤ`. -/
noncomputable def accuracyToRating (accuracy : ℝ) : ℤ :=
  let clamped := max 1 (min 99.5 accuracy)
  let raw := 590 * Real.log (clamped / (100 - clamped)) + 700
  let bounded := max 200 (min 2900 raw)
  round (bounded / 25) * 25

/-- Following the words of the spec for the Rating Estimator:
`rating = round_to_nearest_25(clamp(200, 2900, 590·ln(a/(100−a)) + 700))`
with `a = clamp(1, 99.5, acc)`. -/
noncomputable def accuracyToRatingSpec (acc : ℝ) : ℤ :=
  let a := max 1 (min 99.5 acc)
  round (max 200 (min 2900 (590 * Real.log (a / (100 - a)) + 700)) / 25) * 25

-- =========================================================================
-- Analysis orchestrator: the SSE stream body of
-- `POST /api/games/[id]/analyze` (and the identical chained replay loop of
-- the client-side `analyzeGame` in `src/lib/analyze.ts`).
-- =========================================================================

/-- One verbose history entry of the parsed game, as consumed by the loop:
`{ san, from, to, promotion?, color }` (field `from` renamed `fromSq`, `to`
renamed `toSq`, because `from` is reserved in Lean). -/
structure Move where
  san : String
  fromSq : String
  toSq : String
  promotion : Option String
  color : Color

/-- The `GameAnalysis` record from `src/lib/engine.ts`. -/
structure GameAnalysis where
  moves : List MoveAnalysis
  whiteAccuracy : ℝ
  blackAccuracy : ℝ
  whiteRating : ℤ
  blackRating : ℤ

/-- One server-sent event of the progress stream. -/
inductive SseEvent where
  | progress (current total : ℕ)
  | complete (analysis : GameAnalysis)
  | error (msg : String)

/-- Observer: whether an event is a progress event. -/
def SseEvent.isProgress : SseEvent → Bool
  | .progress _ _ => true
  | _ => false

/-- Output of the replay loop: the accumulated `analysis` array, the
progress events sent from inside the loop, and the number of
`engine.evaluate` calls the loop itself issued. -/
structure LoopOut where
  analysis : List MoveAnalysis
  events : List SseEvent
  evalCalls : ℕ

/-- The `for (let i = 0; i < moves.length; i++)` loop of the orchestrator.
`oracle k` is the result of the k-th `engine.evaluate` call of the run;
the baseline evaluation before the loop is call `0` and, because engine
commands are strictly sequential, the single evaluation inside iteration
`i` is call `i + 1`.  The board replica, its FEN projection and the
UCI→SAN conversion are external collaborators (chess.js) and enter as
opaque parameters. -/
noncomputable def analyzeLoop {Board : Type} (oracle : ℕ → EngineEvaluation)
    (applyMove : Board → Move → Board) (fen : Board → String)
    (uciToSanF : String → String → String) (total : ℕ) :
    List Move → ℕ → Board → EngineEvaluation → LoopOut
  | [], _, _, _ => ⟨[], [], 0⟩
  | move :: rest, i, board, prevResult =>
      let fenBefore := fen board
      let evalBefore := prevResult.eval
      let bestMove := prevResult.bestMove
      let bestPv := prevResult.pv
      -- replay.move(move.san)
      let board2 := applyMove board move
      -- engine.evaluate(replay.fen(), depth): engine call number i + 1
      let afterResult := oracle (i + 1)
      let evalAfter := afterResult.eval
      let bestMoveSan := uciToSanF fenBefore bestMove
      let uci := move.fromSq ++ move.toSq ++ move.promotion.getD ""
      let isPlayedBest := uci == bestMove
      let wpBefore := cpToWinPercent (evalBefore : ℝ)
      let wpAfter := cpToWinPercent (evalAfter : ℝ)
      let winPercentLoss :=
        if move.color = Color.w then max 0 (wpBefore - wpAfter)
        else max 0 ((100 - wpBefore) - (100 - wpAfter))
      let classification := classifyMove winPercentLoss isPlayedBest
      let ma : MoveAnalysis :=
        { moveNumber := i / 2 + 1
          color := move.color
          san := move.san
          uci := uci
          evalBefore := evalBefore
          evalAfter := evalAfter
          bestMove := bestMove
          bestMoveSan := bestMoveSan
          classification := classification
          topLines := if bestPv.length > 0 then [(bestPv, evalBefore)] else [] }
      let restOut := analyzeLoop oracle applyMove fen uciToSanF total rest (i + 1)
        board2 afterResult
      ⟨ma :: restOut.analysis,
       SseEvent.progress (i + 1) total :: restOut.events,
       restOut.evalCalls + 1⟩

/-- Result of one run of the orchestrator body: the SSE events it emitted
in order, and how many times it initialised the engine and called
`engine.evaluate`. -/
structure RunResult where
  events : List SseEvent
  initCalls : ℕ
  evalCalls : ℕ

/-- The `result` record the orchestrator builds after the loop: the
accumulated per-move analysis, both accuracies (each side filtered to its
own moves) and the ratings derived from them.  Factored out of
`runAnalysis` so theorems can name the `GameAnalysis` carried by the
terminal `complete` event. -/
noncomputable def runGameAnalysis {Board : Type} (oracle : ℕ → EngineEvaluation)
    (applyMove : Board → Move → Board) (fen : Board → String)
    (uciToSanF : String → String → String) (startBoard : Board)
    (moves : List Move) : GameAnalysis :=
  let out := analyzeLoop oracle applyMove fen uciToSanF moves.length moves 0
    startBoard (oracle 0)
  let whiteMoves := out.analysis.filter (fun m => m.color == Color.w)
  let blackMoves := out.analysis.filter (fun m => m.color == Color.b)
  let whiteAccuracy := calculateAccuracy whiteMoves
  let blackAccuracy := calculateAccuracy blackMoves
  { moves := out.analysis
    whiteAccuracy := whiteAccuracy
    blackAccuracy := blackAccuracy
    whiteRating := accuracyToRating whiteAccuracy
    blackRating := accuracyToRating blackAccuracy }

/-- The success path of the SSE stream body of the analyze route: on an
empty move list, short-circuit to the trivial result (ratings `0`) without
touching the engine; otherwise send `progress 0`, initialise the engine,
take the baseline evaluation (engine call `0`), run the replay loop, then
compute both accuracies and ratings (`runGameAnalysis`) and send the
terminal `complete` event.  The client-side `analyzeGame` runs the same
loop, without the `progress 0` event and with the same trivial empty-game
result. -/
noncomputable def runAnalysis {Board : Type} (oracle : ℕ → EngineEvaluation)
    (applyMove : Board → Move → Board) (fen : Board → String)
    (uciToSanF : String → String → String) (startBoard : Board)
    (moves : List Move) : RunResult :=
  if moves.length = 0 then
    { events := [SseEvent.complete
        { moves := [], whiteAccuracy := 100, blackAccuracy := 100,
          whiteRating := 0, blackRating := 0 }]
      initCalls := 0
      evalCalls := 0 }
  else
    let total := moves.length
    -- send({ type: "progress", current: 0, total }); engine init;
    -- baseline evaluation = engine call 0
    let prevResult := oracle 0
    let out := analyzeLoop oracle applyMove fen uciToSanF total moves 0
      startBoard prevResult
    let result : GameAnalysis :=
      runGameAnalysis oracle applyMove fen uciToSanF startBoard moves
    { events := SseEvent.progress 0 total ::
        (out.events ++ [SseEvent.complete result])
      initCalls := 1
      evalCalls := out.evalCalls + 1 }


-- =========================================================================
-- Helper lemmas
-- =========================================================================

/-- The calibration constant is negative. -/
theorem winPercentMultiplier_neg : WIN_PERCENT_MULTIPLIER < 0 := by
  norm_num [WIN_PERCENT_MULTIPLIER]

/-- Clamping to `[-10000, 10000]` is monotone. -/
theorem clamp10k_mono {x y : ℝ} (h : x ≤ y) :
    max (-10000) (min 10000 x) ≤ max (-10000) (min 10000 y) :=
  max_le_max le_rfl (min_le_min le_rfl h)

/-- Clamping to the symmetric interval `[-10000, 10000]` commutes with
negation. -/
theorem clamp10k_neg (x : ℝ) :
    max (-10000) (min 10000 (-x)) = -(max (-10000) (min 10000 x)) := by
  rw [← min_neg_neg, neg_neg, ← max_neg_neg, max_min_distrib_left]
  norm_num

/-- The logistic winning-chances term is strictly monotone in the (clamped)
centipawn argument, because the multiplier is negative. -/
theorem logistic_strictMono {u v : ℝ} (h : u < v) :
    2 / (1 + Real.exp (WIN_PERCENT_MULTIPLIER * u)) <
      2 / (1 + Real.exp (WIN_PERCENT_MULTIPLIER * v)) := by
  have hm : WIN_PERCENT_MULTIPLIER * v < WIN_PERCENT_MULTIPLIER * u :=
    mul_lt_mul_of_neg_left h winPercentMultiplier_neg
  have he : Real.exp (WIN_PERCENT_MULTIPLIER * v) <
      Real.exp (WIN_PERCENT_MULTIPLIER * u) := Real.exp_lt_exp.mpr hm
  have h1 : (0 : ℝ) < 1 + Real.exp (WIN_PERCENT_MULTIPLIER * v) := by positivity
  exact div_lt_div_of_pos_left (by norm_num) h1 (by linarith)

/-- Pointwise symmetry of the logistic transform. -/
theorem logistic_sum (t : ℝ) :
    (50 + 50 * (2 / (1 + Real.exp t) - 1)) +
      (50 + 50 * (2 / (1 + Real.exp (-t)) - 1)) = 100 := by
  have h1 : (0 : ℝ) < 1 + Real.exp t := by positivity
  have h3 : Real.exp t ≠ 0 := (Real.exp_pos t).ne'
  rw [Real.exp_neg]
  field_simp
  ring

/-- Pointwise range of the logistic transform. -/
theorem logistic_range (t : ℝ) :
    0 < 50 + 50 * (2 / (1 + Real.exp t) - 1) ∧
      50 + 50 * (2 / (1 + Real.exp t) - 1) < 100 := by
  have h1 : (0 : ℝ) < 1 + Real.exp t := by positivity
  have h2 : (0 : ℝ) < 2 / (1 + Real.exp t) := by positivity
  have h3 : 2 / (1 + Real.exp t) < 2 := by
    rw [div_lt_iff₀ h1]
    have := Real.exp_pos t
    linarith
  constructor <;> linarith

/-- Unfolding of `cpToWinPercent` to its closed logistic form. -/
theorem cpToWinPercent_eq (cp : ℝ) :
    cpToWinPercent cp =
      50 + 50 * (2 / (1 + Real.exp (WIN_PERCENT_MULTIPLIER *
        (max (-10000) (min 10000 cp)))) - 1) := rfl

/-- The value `accuracyToRating` assigns to a perfect accuracy of 100. -/
theorem accuracyToRating_100 : accuracyToRating 100 = 2900 := by
  have hclamp : max (1 : ℝ) (min 99.5 100) = 99.5 := by norm_num
  have harg : (99.5 : ℝ) / (100 - 99.5) = 199 := by norm_num
  have hexp4 : Real.exp 4 = Real.exp 1 ^ 4 := by
    rw [← Real.exp_nat_mul]
    norm_num
  have hexp : Real.exp 4 < 199 := by
    rw [hexp4]
    calc Real.exp 1 ^ 4 ≤ 2.7182818286 ^ 4 :=
          pow_le_pow_left₀ (Real.exp_pos 1).le Real.exp_one_lt_d9.le 4
      _ < 199 := by norm_num
  have hlog : (4 : ℝ) < Real.log 199 :=
    (Real.lt_log_iff_exp_lt (by norm_num)).mpr hexp
  have hraw : (2900 : ℝ) ≤ 590 * Real.log 199 + 700 := by nlinarith
  show round (max 200 (min 2900 (590 * Real.log (max (1:ℝ) (min 99.5 100) /
      (100 - max (1:ℝ) (min 99.5 100))) + 700)) / 25) * 25 = 2900
  rw [hclamp, harg, min_eq_left hraw, max_eq_right (by norm_num : (200:ℝ) ≤ 2900)]
  norm_num

-- =========================================================================
-- Claim C5 — the move classifier
-- =========================================================================

/-- Claim C5: `classifyMove(winPercentLoss, isBest)` returns `best` exactly
when `isBest` is true, regardless of the loss; otherwise it buckets the
win-percent loss at the thresholds 2, 5, 10, 20 into `great`, `good`,
`inaccuracy`, `mistake`, `blunder`; and it never returns `brilliant` or
`book`. -/
theorem c5_classifyMove (loss : ℝ) (isBest : Bool) :
    (classifyMove loss isBest = .best ↔ isBest = true) ∧
    (isBest = false →
      ((classifyMove loss isBest = .great ↔ loss ≤ 2) ∧
       (classifyMove loss isBest = .good ↔ 2 < loss ∧ loss ≤ 5) ∧
       (classifyMove loss isBest = .inaccuracy ↔ 5 < loss ∧ loss ≤ 10) ∧
       (classifyMove loss isBest = .mistake ↔ 10 < loss ∧ loss ≤ 20) ∧
       (classifyMove loss isBest = .blunder ↔ 20 < loss))) ∧
    classifyMove loss isBest ≠ .brilliant ∧
    classifyMove loss isBest ≠ .book := by
  cases isBest with
  | true =>
      exact ⟨by simp [classifyMove], by simp, by simp [classifyMove],
        by simp [classifyMove]⟩
  | false =>
      have hcm : classifyMove loss false =
          (if loss ≤ 2 then .great else if loss ≤ 5 then .good
           else if loss ≤ 10 then .inaccuracy else if loss ≤ 20 then .mistake
           else .blunder) := by
        simp [classifyMove]
      refine ⟨by rw [hcm]; split_ifs <;> simp,
        fun _ => ⟨?_, ?_, ?_, ?_, ?_⟩,
        by rw [hcm]; split_ifs <;> simp,
        by rw [hcm]; split_ifs <;> simp⟩ <;> rw [hcm] <;>
        split_ifs with h1 h2 h3 h4
      · exact iff_of_true rfl h1
      · exact iff_of_false (by decide) h1
      · exact iff_of_false (by decide) h1
      · exact iff_of_false (by decide) h1
      · exact iff_of_false (by decide) h1
      · exact iff_of_false (by decide) (by rintro ⟨a, _⟩; linarith)
      · exact iff_of_true rfl ⟨not_le.mp h1, h2⟩
      · exact iff_of_false (by decide) (by rintro ⟨_, a⟩; linarith)
      · exact iff_of_false (by decide) (by rintro ⟨_, a⟩; linarith)
      · exact iff_of_false (by decide) (by rintro ⟨_, a⟩; linarith)
      · exact iff_of_false (by decide) (by rintro ⟨a, _⟩; linarith)
      · exact iff_of_false (by decide) (by rintro ⟨a, _⟩; linarith)
      · exact iff_of_true rfl ⟨not_le.mp h2, h3⟩
      · exact iff_of_false (by decide) (by rintro ⟨_, a⟩; linarith)
      · exact iff_of_false (by decide) (by rintro ⟨_, a⟩; linarith)
      · exact iff_of_false (by decide) (by rintro ⟨a, _⟩; linarith)
      · exact iff_of_false (by decide) (by rintro ⟨a, _⟩; linarith)
      · exact iff_of_false (by decide) (by rintro ⟨a, _⟩; linarith)
      · exact iff_of_true rfl ⟨not_le.mp h3, h4⟩
      · exact iff_of_false (by decide) (by rintro ⟨_, a⟩; linarith)
      · exact iff_of_false (by decide) (by linarith)
      · exact iff_of_false (by decide) (by linarith)
      · exact iff_of_false (by decide) (by linarith)
      · exact iff_of_false (by decide) (by linarith)
      · exact iff_of_true rfl (not_le.mp h4)

/-- Witness for C5 at the example points listed in the spec. -/
theorem c5_classifyMove_witness :
    classifyMove 1 false = .great ∧ classifyMove 3 false = .good ∧
    classifyMove 11 false = .mistake ∧ classifyMove 25 false = .blunder ∧
    classifyMove 100 true = .best :=
  ⟨((c5_classifyMove 1 false).2.1 rfl).1.mpr (by norm_num),
   ((c5_classifyMove 3 false).2.1 rfl).2.1.mpr (by norm_num),
   ((c5_classifyMove 11 false).2.1 rfl).2.2.2.1.mpr (by norm_num),
   ((c5_classifyMove 25 false).2.1 rfl).2.2.2.2.mpr (by norm_num),
   (c5_classifyMove 100 true).1.mpr rfl⟩

-- =========================================================================
-- Claim C7 — the rating estimator
-- =========================================================================

/-- Claim C7: `accuracyToRating(acc)` equals the round-to-nearest-25 of the
clamped logistic rating formula of the spec, and its result always lies in
`[200, 2900]` and is a multiple of 25. -/
theorem c7_accuracyToRating (acc : ℝ) :
    accuracyToRating acc = accuracyToRatingSpec acc ∧
    200 ≤ accuracyToRating acc ∧ accuracyToRating acc ≤ 2900 ∧
    (25 : ℤ) ∣ accuracyToRating acc := by
  have hval : accuracyToRating acc =
      round ((max (200 : ℝ) (min 2900 (590 * Real.log (max 1 (min 99.5 acc) /
        (100 - max 1 (min 99.5 acc))) + 700))) / 25) * 25 := rfl
  set b := max (200 : ℝ) (min 2900 (590 * Real.log (max 1 (min 99.5 acc) /
    (100 - max 1 (min 99.5 acc))) + 700)) with hb
  have h200 : (200 : ℝ) ≤ b := le_max_left _ _
  have h2900 : b ≤ 2900 := max_le (by norm_num) (min_le_left _ _)
  have hlo : (8 : ℤ) ≤ round (b / 25) := by
    rw [round_eq, Int.le_floor]
    push_cast
    linarith
  have hhi : round (b / 25) ≤ 116 := by
    have h : round (b / 25) < 117 := by
      rw [round_eq, Int.floor_lt]
      push_cast
      linarith
    omega
  exact ⟨rfl, by rw [hval]; linarith, by rw [hval]; linarith,
    hval ▸ dvd_mul_left 25 _⟩

-- =========================================================================
-- Claim C8 — the win-percent transform
-- =========================================================================

/-- Claim C8: `cpToWinPercent` sends 0 to 50, satisfies the symmetry
`cpToWinPercent cp + cpToWinPercent (-cp) = 100` for every finite `cp`, is
monotonically nondecreasing everywhere and strictly increasing on the clamp
interval `[-10000, 10000]`, and always lies within `[0, 100]`. -/
theorem c8_cpToWinPercent :
    cpToWinPercent 0 = 50 ∧
    (∀ cp : ℝ, cpToWinPercent cp + cpToWinPercent (-cp) = 100) ∧
    (∀ x y : ℝ, x ≤ y → cpToWinPercent x ≤ cpToWinPercent y) ∧
    (∀ x y : ℝ, -10000 ≤ x → x < y → y ≤ 10000 →
      cpToWinPercent x < cpToWinPercent y) ∧
    (∀ cp : ℝ, 0 ≤ cpToWinPercent cp ∧ cpToWinPercent cp ≤ 100) := by
  refine ⟨?_, ?_, ?_, ?_, ?_⟩
  · rw [cpToWinPercent_eq]
    norm_num [Real.exp_zero]
  · intro cp
    rw [cpToWinPercent_eq, cpToWinPercent_eq, clamp10k_neg, mul_neg]
    exact logistic_sum _
  · intro x y hxy
    rcases eq_or_lt_of_le (clamp10k_mono hxy) with h | h
    · rw [cpToWinPercent_eq, cpToWinPercent_eq, h]
    · rw [cpToWinPercent_eq, cpToWinPercent_eq]
      have := logistic_strictMono h
      linarith
  · intro x y hx hxy hy
    have hcx : max (-10000 : ℝ) (min 10000 x) = x := by
      rw [min_eq_right (le_trans hxy.le hy), max_eq_right hx]
    have hcy : max (-10000 : ℝ) (min 10000 y) = y := by
      rw [min_eq_right hy, max_eq_right (le_trans hx hxy.le)]
    rw [cpToWinPercent_eq, cpToWinPercent_eq, hcx, hcy]
    have := logistic_strictMono hxy
    linarith
  · intro cp
    rw [cpToWinPercent_eq]
    have h := logistic_range (WIN_PERCENT_MULTIPLIER *
      (max (-10000) (min 10000 cp)))
    exact ⟨h.1.le, h.2.le⟩

/-- Witness for C8: the strict and weak monotonicity parts applied at
concrete points. -/
theorem c8_cpToWinPercent_witness :
    cpToWinPercent 0 < cpToWinPercent 1 ∧
    cpToWinPercent (-3) ≤ cpToWinPercent 7 :=
  ⟨c8_cpToWinPercent.2.2.2.1 0 1 (by norm_num) (by norm_num) (by norm_num),
   c8_cpToWinPercent.2.2.1 (-3) 7 (by norm_num)⟩

-- =========================================================================
-- Claim C6 — the volatility window of `calculateAccuracy`
-- =========================================================================

/-- Claim C6 (code bug evidence): the sliding-window slice that
`calculateAccuracy` actually takes for the weight of move `i` spans the six
indices `i - 2 .. i + 3` (because `end = i + Math.ceil(WINDOW / 2) + 1 =
i + 4` is used as the exclusive slice bound), not the centered five-index
window `i - 2 .. i + 2` that the spec and the source comment
(`window size = 5 moves`) describe.  At `i = 2` over six win-percent
values the code windows over all six. -/
theorem c6_volWindow_six_not_five :
    volWindow ([10, 20, 30, 40, 50, 60] : List ℕ) 2 = [10, 20, 30, 40, 50, 60] ∧
    (volWindow ([10, 20, 30, 40, 50, 60] : List ℕ) 2).length = 6 ∧
    windowSpec5 ([10, 20, 30, 40, 50, 60] : List ℕ) 2 = [10, 20, 30, 40, 50] ∧
    volWindow ([10, 20, 30, 40, 50, 60] : List ℕ) 2 ≠
      windowSpec5 ([10, 20, 30, 40, 50, 60] : List ℕ) 2 := by
  decide

-- =========================================================================
-- Claim C2 — the empty-game short-circuit
-- =========================================================================

/-- Claim C2 (amended): an empty move list short-circuits without
initialising or invoking the engine and yields
`{moves: [], whiteAccuracy: 100, blackAccuracy: 100}` with both ratings set
to the constant 0 (not to the rating corresponding to 100% accuracy). -/
theorem c2_empty_shortcircuit {Board : Type} (oracle : ℕ → EngineEvaluation)
    (applyMove : Board → Move → Board) (fen : Board → String)
    (uciToSanF : String → String → String) (startBoard : Board) :
    runAnalysis oracle applyMove fen uciToSanF startBoard [] =
      { events := [SseEvent.complete
          { moves := [], whiteAccuracy := 100, blackAccuracy := 100,
            whiteRating := 0, blackRating := 0 }]
        initCalls := 0
        evalCalls := 0 } := rfl

/-- Claim C2 counterexample: the empty-game result carries rating 0 for
each side, whereas the rating corresponding to 100% accuracy is
`accuracyToRating 100 = 2900 ≠ 0`. -/
theorem c2_counterexample :
    (runAnalysis (fun _ => ⟨0, "", [], 0, none⟩) (fun (b : Unit) _ => b)
        (fun _ => "") (fun _ u => u) () []).events =
      [SseEvent.complete
        { moves := [], whiteAccuracy := 100, blackAccuracy := 100,
          whiteRating := 0, blackRating := 0 }] ∧
    accuracyToRating 100 = 2900 ∧ (0 : ℤ) ≠ 2900 :=
  ⟨rfl, accuracyToRating_100, by decide⟩

-- =========================================================================
-- Replay-loop lemmas (shared by C1, C3, C4)
-- =========================================================================

/-- The events the replay loop emits: one progress event per ply, with
`current` running from `i + 1` upward. -/
theorem analyzeLoop_events {Board : Type} (oracle : ℕ → EngineEvaluation)
    (applyMove : Board → Move → Board) (fen : Board → String)
    (uciToSanF : String → String → String) (total : ℕ) (ms : List Move) :
    ∀ (i : ℕ) (b : Board) (prev : EngineEvaluation),
      (analyzeLoop oracle applyMove fen uciToSanF total ms i b prev).events =
        (List.range ms.length).map
          (fun j => SseEvent.progress (i + j + 1) total) := by
  induction ms with
  | nil => intro i b prev; simp [analyzeLoop]
  | cons m rest ih =>
      intro i b prev
      simp only [analyzeLoop, List.length_cons, List.range_succ_eq_map,
        List.map_cons, List.map_map]
      rw [ih]
      congr 1
      apply List.map_congr_left
      intro j _
      simp only [Function.comp_apply, SseEvent.progress.injEq]
      exact ⟨by omega, trivial⟩

/-- The replay loop issues exactly one `engine.evaluate` call per ply. -/
theorem analyzeLoop_evalCalls {Board : Type} (oracle : ℕ → EngineEvaluation)
    (applyMove : Board → Move → Board) (fen : Board → String)
    (uciToSanF : String → String → String) (total : ℕ) (ms : List Move) :
    ∀ (i : ℕ) (b : Board) (prev : EngineEvaluation),
      (analyzeLoop oracle applyMove fen uciToSanF total ms i b prev).evalCalls =
        ms.length := by
  induction ms with
  | nil => intro i b prev; simp [analyzeLoop]
  | cons m rest ih =>
      intro i b prev
      simp only [analyzeLoop, List.length_cons]
      rw [ih]

/-- The replay loop produces one `MoveAnalysis` per ply. -/
theorem analyzeLoop_analysis_length {Board : Type} (oracle : ℕ → EngineEvaluation)
    (applyMove : Board → Move → Board) (fen : Board → String)
    (uciToSanF : String → String → String) (total : ℕ) (ms : List Move) :
    ∀ (i : ℕ) (b : Board) (prev : EngineEvaluation),
      (analyzeLoop oracle applyMove fen uciToSanF total ms i b prev).analysis.length =
        ms.length := by
  induction ms with
  | nil => intro i b prev; simp [analyzeLoop]
  | cons m rest ih =>
      intro i b prev
      simp only [analyzeLoop, List.length_cons]
      rw [ih]

/-- Projections of the `j`-th `MoveAnalysis` produced by the loop, given
that the incoming baseline is the result of engine call `i`: the move
number is `(i + j) / 2 + 1`, the pre-move evaluation comes from engine
call `i + j` and the post-move evaluation from engine call `i + j + 1`. -/
theorem analyzeLoop_analysis_get {Board : Type} (oracle : ℕ → EngineEvaluation)
    (applyMove : Board → Move → Board) (fen : Board → String)
    (uciToSanF : String → String → String) (total : ℕ) (ms : List Move) :
    ∀ (i : ℕ) (b : Board) (prev : EngineEvaluation), prev = oracle i →
      ∀ (j : ℕ)
        (h : j < (analyzeLoop oracle applyMove fen uciToSanF total ms i b prev).analysis.length),
        ((analyzeLoop oracle applyMove fen uciToSanF total ms i b prev).analysis.get
            ⟨j, h⟩).moveNumber = (i + j) / 2 + 1 ∧
        ((analyzeLoop oracle applyMove fen uciToSanF total ms i b prev).analysis.get
            ⟨j, h⟩).evalBefore = (oracle (i + j)).eval ∧
        ((analyzeLoop oracle applyMove fen uciToSanF total ms i b prev).analysis.get
            ⟨j, h⟩).evalAfter = (oracle (i + j + 1)).eval := by
  induction ms with
  | nil =>
      intro i b prev hprev j h
      simp [analyzeLoop] at h
  | cons m rest ih =>
      intro i b prev hprev j h
      cases j with
      | zero =>
          simp [analyzeLoop, hprev]
      | succ j' =>
          have h' : j' <
              (analyzeLoop oracle applyMove fen uciToSanF total rest (i + 1)
                (applyMove b m) (oracle (i + 1))).analysis.length := by
            have hl := analyzeLoop_analysis_length oracle applyMove fen uciToSanF
              total (m :: rest) i b prev
            have hl' := analyzeLoop_analysis_length oracle applyMove fen uciToSanF
              total rest (i + 1) (applyMove b m) (oracle (i + 1))
            rw [hl] at h
            rw [hl']
            simpa using h
          have hrec := ih (i + 1) (applyMove b m) (oracle (i + 1)) rfl j' h'
          have hstep :
              ((analyzeLoop oracle applyMove fen uciToSanF total (m :: rest) i b
                  prev).analysis.get ⟨j' + 1, h⟩) =
              ((analyzeLoop oracle applyMove fen uciToSanF total rest (i + 1)
                  (applyMove b m) (oracle (i + 1))).analysis.get ⟨j', h'⟩) := by
            simp [analyzeLoop]
          rw [hstep]
          refine ⟨?_, ?_, ?_⟩
          · rw [hrec.1]
            congr 1
            omega
          · rw [hrec.2.1]
            congr 2
            omega
          · rw [hrec.2.2]
            congr 2
            omega

/-- The moves list of the orchestrator result is the loop's analysis
array. -/
theorem runGameAnalysis_moves {Board : Type} (oracle : ℕ → EngineEvaluation)
    (applyMove : Board → Move → Board) (fen : Board → String)
    (uciToSanF : String → String → String) (startBoard : Board)
    (moves : List Move) :
    (runGameAnalysis oracle applyMove fen uciToSanF startBoard moves).moves =
      (analyzeLoop oracle applyMove fen uciToSanF moves.length moves 0
        startBoard (oracle 0)).analysis := rfl

-- =========================================================================
-- Claim C1 — the emitted event stream
-- =========================================================================

/-- Claim C1 (amended): for every game of `N ≥ 1` plies whose analysis
completes successfully, the emitted stream consists of exactly `N + 1`
progress events whose `current` values strictly increase from 0 to `N`
(the route sends a `current: 0` progress event before the first ply),
followed by exactly one `complete` event carrying the full `GameAnalysis`,
and no event of any kind after the terminal event. -/
theorem c1_event_stream {Board : Type} (oracle : ℕ → EngineEvaluation)
    (applyMove : Board → Move → Board) (fen : Board → String)
    (uciToSanF : String → String → String) (startBoard : Board)
    (moves : List Move) (hne : moves ≠ []) :
    ∃ ga : GameAnalysis,
      (runAnalysis oracle applyMove fen uciToSanF startBoard moves).events =
        (List.range (moves.length + 1)).map
          (fun c => SseEvent.progress c moves.length) ++
          [SseEvent.complete ga] := by
  have hlen : ¬ moves.length = 0 := by
    simpa [List.length_eq_zero] using hne
  refine ⟨runGameAnalysis oracle applyMove fen uciToSanF startBoard moves, ?_⟩
  simp only [runAnalysis, hlen, if_false,
    analyzeLoop_events oracle applyMove fen uciToSanF moves.length moves 0,
    List.range_succ_eq_map, List.map_cons, List.map_map]
  rw [List.cons_append]
  congr 2
  apply List.map_congr_left
  intro j _
  simp only [Function.comp_apply, SseEvent.progress.injEq]
  exact ⟨by omega, trivial⟩

/-- Witness for C1 at a concrete one-ply game with a trivial engine
oracle and board. -/
theorem c1_event_stream_witness :
    ∃ ga : GameAnalysis,
      (runAnalysis (fun _ => ⟨0, "", [], 0, none⟩) (fun (b : Unit) _ => b)
          (fun _ => "") (fun _ u => u) ()
          [⟨"e4", "e2", "e4", none, Color.w⟩]).events =
        (List.range 2).map (fun c => SseEvent.progress c 1) ++
          [SseEvent.complete ga] :=
  c1_event_stream (fun _ => ⟨0, "", [], 0, none⟩) (fun (b : Unit) _ => b)
    (fun _ => "") (fun _ u => u) () [⟨"e4", "e2", "e4", none, Color.w⟩]
    (List.cons_ne_nil _ _)

/-- Claim C1 counterexample: on a one-ply game the route emits TWO
progress events — `current = 0` (sent before the loop) and `current = 1` —
not exactly `N = 1` progress events with `current` starting at 1. -/
theorem c1_counterexample :
    ∃ ga : GameAnalysis,
      (runAnalysis (fun _ => ⟨0, "", [], 0, none⟩) (fun (b : Unit) _ => b)
          (fun _ => "") (fun _ u => u) ()
          [⟨"e4", "e2", "e4", none, Color.w⟩]).events =
        [SseEvent.progress 0 1, SseEvent.progress 1 1,
          SseEvent.complete ga] ∧
      ((runAnalysis (fun _ => ⟨0, "", [], 0, none⟩) (fun (b : Unit) _ => b)
          (fun _ => "") (fun _ u => u) ()
          [⟨"e4", "e2", "e4", none, Color.w⟩]).events.filter
            SseEvent.isProgress).length = 2 ∧ (2 : ℕ) ≠ 1 := by
  exact ⟨runGameAnalysis (fun _ => ⟨0, "", [], 0, none⟩) (fun (b : Unit) _ => b)
    (fun _ => "") (fun _ u => u) () [⟨"e4", "e2", "e4", none, Color.w⟩],
    rfl, rfl, by decide⟩

-- =========================================================================
-- Claim C4 — number of engine evaluations
-- =========================================================================

/-- Claim C4: one full analysis run over an `N`-ply game (`N ≥ 1`)
initialises the engine once and issues exactly `N + 1` calls to
`engine.evaluate` — the baseline evaluation of the starting position plus
one evaluation after each played ply — rather than `2N`. -/
theorem c4_eval_calls {Board : Type} (oracle : ℕ → EngineEvaluation)
    (applyMove : Board → Move → Board) (fen : Board → String)
    (uciToSanF : String → String → String) (startBoard : Board)
    (moves : List Move) (hne : moves ≠ []) :
    (runAnalysis oracle applyMove fen uciToSanF startBoard moves).evalCalls =
      moves.length + 1 ∧
    (runAnalysis oracle applyMove fen uciToSanF startBoard moves).initCalls = 1 := by
  have hlen : ¬ moves.length = 0 := by
    simpa [List.length_eq_zero] using hne
  constructor <;>
    simp only [runAnalysis, hlen, if_false,
      analyzeLoop_evalCalls oracle applyMove fen uciToSanF moves.length moves 0]

/-- Witness for C4 on a concrete two-ply game: 3 evaluations, 1 init. -/
theorem c4_eval_calls_witness :
    (runAnalysis (fun _ => ⟨0, "", [], 0, none⟩) (fun (b : Unit) _ => b)
        (fun _ => "") (fun _ u => u) ()
        [⟨"e4", "e2", "e4", none, Color.w⟩,
         ⟨"e5", "e7", "e5", none, Color.b⟩]).evalCalls = 3 ∧
    (runAnalysis (fun _ => ⟨0, "", [], 0, none⟩) (fun (b : Unit) _ => b)
        (fun _ => "") (fun _ u => u) ()
        [⟨"e4", "e2", "e4", none, Color.w⟩,
         ⟨"e5", "e7", "e5", none, Color.b⟩]).initCalls = 1 :=
  c4_eval_calls (fun _ => ⟨0, "", [], 0, none⟩) (fun (b : Unit) _ => b)
    (fun _ => "") (fun _ u => u) ()
    [⟨"e4", "e2", "e4", none, Color.w⟩, ⟨"e5", "e7", "e5", none, Color.b⟩]
    (List.cons_ne_nil _ _)

-- =========================================================================
-- Claim C3 — move numbering and the chaining invariant
-- =========================================================================

/-- Claim C3: in every `GameAnalysis` produced by a successful run over an
`N`-ply game, the `i`-th `MoveAnalysis` has `moveNumber = ⌊i / 2⌋ + 1`, and
`evalBefore` of ply `i + 1` equals `evalAfter` of ply `i` (the chaining
invariant). -/
theorem c3_numbering_chaining {Board : Type} (oracle : ℕ → EngineEvaluation)
    (applyMove : Board → Move → Board) (fen : Board → String)
    (uciToSanF : String → String → String) (startBoard : Board)
    (moves : List Move) (hne : moves ≠ []) :
    ∃ ga : GameAnalysis,
      (runAnalysis oracle applyMove fen uciToSanF startBoard
          moves).events.getLast? = some (SseEvent.complete ga) ∧
      ga.moves.length = moves.length ∧
      (∀ j (h : j < ga.moves.length),
        (ga.moves.get ⟨j, h⟩).moveNumber = j / 2 + 1) ∧
      (∀ j (h : j + 1 < ga.moves.length),
        (ga.moves.get ⟨j + 1, h⟩).evalBefore =
          (ga.moves.get ⟨j, Nat.lt_of_succ_lt h⟩).evalAfter) := by
  have hlen : ¬ moves.length = 0 := by
    simpa [List.length_eq_zero] using hne
  refine ⟨runGameAnalysis oracle applyMove fen uciToSanF startBoard moves,
    ?_, ?_, ?_, ?_⟩
  · simp only [runAnalysis, hlen, if_false]
    rw [← List.cons_append, List.getLast?_concat]
  · exact analyzeLoop_analysis_length oracle applyMove fen uciToSanF
      moves.length moves 0 startBoard (oracle 0)
  · intro j h
    have hget := analyzeLoop_analysis_get oracle applyMove fen uciToSanF
      moves.length moves 0 startBoard (oracle 0) rfl j h
    simpa using hget.1
  · intro j h
    have hget1 := analyzeLoop_analysis_get oracle applyMove fen uciToSanF
      moves.length moves 0 startBoard (oracle 0) rfl (j + 1) h
    have hget0 := analyzeLoop_analysis_get oracle applyMove fen uciToSanF
      moves.length moves 0 startBoard (oracle 0) rfl j (Nat.lt_of_succ_lt h)
    simp only [runGameAnalysis_moves]
    rw [hget1.2.1, hget0.2.2]
    simp [Nat.add_comm]

/-- Witness for C3 on a concrete three-ply game with a varying oracle. -/
theorem c3_numbering_chaining_witness :
    ∃ ga : GameAnalysis,
      (runAnalysis (fun k => ⟨(k : ℤ) * 10, "", [], 0, none⟩)
          (fun (b : Unit) _ => b) (fun _ => "") (fun _ u => u) ()
          [⟨"e4", "e2", "e4", none, Color.w⟩,
           ⟨"e5", "e7", "e5", none, Color.b⟩,
           ⟨"Nf3", "g1", "f3", none, Color.w⟩]).events.getLast? =
        some (SseEvent.complete ga) ∧
      ga.moves.length = 3 ∧
      (∀ j (h : j < ga.moves.length),
        (ga.moves.get ⟨j, h⟩).moveNumber = j / 2 + 1) ∧
      (∀ j (h : j + 1 < ga.moves.length),
        (ga.moves.get ⟨j + 1, h⟩).evalBefore =
          (ga.moves.get ⟨j, Nat.lt_of_succ_lt h⟩).evalAfter) :=
  c3_numbering_chaining (fun k => ⟨(k : ℤ) * 10, "", [], 0, none⟩)
    (fun (b : Unit) _ => b) (fun _ => "") (fun _ u => u) ()
    [⟨"e4", "e2", "e4", none, Color.w⟩, ⟨"e5", "e7", "e5", none, Color.b⟩,
     ⟨"Nf3", "g1", "f3", none, Color.w⟩] (List.cons_ne_nil _ _)

-- =========================================================================
-- Parser step lemmas (shared by C9, C10)
-- =========================================================================

/-- A line whose depth does not parse is skipped by the scan loop. -/
theorem parseEvalStep_skip_none (st : EvalScan) (l : String)
    (h : extractInt l "depth" = none) : parseEvalStep st l = st := by
  simp [parseEvalStep, h]

/-- A line whose depth is below the running maximum is skipped. -/
theorem parseEvalStep_skip_low (st : EvalScan) (l : String) (d : ℕ)
    (h : extractInt l "depth" = some d) (hlt : d < st.depth) :
    parseEvalStep st l = st := by
  simp [parseEvalStep, h, hlt]

/-- An applied line installs its own depth. -/
theorem parseEvalStep_depth_eq (st : EvalScan) (l : String) (d : ℕ)
    (h : extractInt l "depth" = some d) (hlt : ¬ d < st.depth) :
    (parseEvalStep st l).depth = d := by
  simp only [parseEvalStep, h]
  rw [if_neg hlt]
  cases hm : mateMatch l <;> cases hc : cpMatch l <;> cases hp : pvMatch l <;>
    simp

/-- The scan depth never decreases across one step. -/
theorem parseEvalStep_depth_ge (st : EvalScan) (l : String) :
    st.depth ≤ (parseEvalStep st l).depth := by
  cases h : extractInt l "depth" with
  | none => rw [parseEvalStep_skip_none st l h]
  | some d =>
      by_cases hlt : d < st.depth
      · rw [parseEvalStep_skip_low st l d h hlt]
      · rw [parseEvalStep_depth_eq st l d h hlt]
        omega

/-- An applied well-formed line overwrites the whole running state with its
own score, mate annotation, pv and depth. -/
theorem parseEvalStep_apply (st : EvalScan) (l : String) (d : ℕ)
    (hdep : extractInt l "depth" = some d) (hlt : ¬ d < st.depth)
    (hwf : lineWF l = true) :
    parseEvalStep st l = ⟨lineScore l, mateMatch l, linePv l, d⟩ := by
  have hwf' := hwf
  simp only [lineWF, Bool.and_eq_true, Bool.or_eq_true,
    Option.isSome_iff_exists] at hwf'
  obtain ⟨⟨_, hscore⟩, ms, hms⟩ := hwf'
  cases hm : mateMatch l with
  | some m =>
      simp [parseEvalStep, hdep, hlt, hm, hms, lineScore, linePv]
  | none =>
      rcases hscore with ⟨m, hm'⟩ | ⟨c, hc⟩
      · rw [hm] at hm'
        exact absurd hm' (by simp)
      · simp [parseEvalStep, hdep, hlt, hm, hc, hms, lineScore, linePv]

/-- The scan depth never decreases across the whole fold. -/
theorem foldl_parseEvalStep_depth_ge (ls : List String) :
    ∀ st : EvalScan, st.depth ≤ (List.foldl parseEvalStep st ls).depth := by
  induction ls with
  | nil => intro st; exact le_rfl
  | cons l ls ih =>
      intro st
      calc st.depth ≤ (parseEvalStep st l).depth := parseEvalStep_depth_ge st l
        _ ≤ _ := ih (parseEvalStep st l)

/-- The final scan depth dominates every parsable depth in the processed
lines. -/
theorem foldl_parseEvalStep_depth_max (ls : List String) :
    ∀ (st : EvalScan) (l : String), l ∈ ls → ∀ d : ℕ,
      extractInt l "depth" = some d →
      d ≤ (List.foldl parseEvalStep st ls).depth := by
  induction ls with
  | nil => intro st l hl; simp at hl
  | cons x ls ih =>
      intro st l hl d hd
      rcases List.mem_cons.mp hl with rfl | hmem
      · rw [List.foldl_cons]
        have h1 : d ≤ (parseEvalStep st l).depth := by
          by_cases hlt : d < st.depth
          · rw [parseEvalStep_skip_low st l d hd hlt]
            omega
          · rw [parseEvalStep_depth_eq st l d hd hlt]
        calc d ≤ (parseEvalStep st l).depth := h1
          _ ≤ _ := foldl_parseEvalStep_depth_ge ls (parseEvalStep st l)
      · rw [List.foldl_cons]
        exact ih (parseEvalStep st x) l hmem d hd

/-- A run of lines none of which has a parsable depth leaves the scan
state untouched. -/
theorem foldl_parseEvalStep_skip_all (ls : List String) :
    ∀ st : EvalScan, (∀ l ∈ ls, extractInt l "depth" = none) →
      List.foldl parseEvalStep st ls = st := by
  induction ls with
  | nil => intro st _; rfl
  | cons l ls ih =>
      intro st h
      rw [List.foldl_cons,
        parseEvalStep_skip_none st l (h l (List.mem_cons_self l ls))]
      exact ih st (fun x hx => h x (List.mem_cons_of_mem l hx))

/-- The head of a non-empty `dropWhile` fails the predicate. -/
theorem dropWhile_head_false {α : Type} (p : α → Bool) :
    ∀ (l : List α) (x : α) (xs : List α),
      l.dropWhile p = x :: xs → p x = false := by
  intro l
  induction l with
  | nil => intro x xs h; simp [List.dropWhile] at h
  | cons a l ih =>
      intro x xs h
      rw [List.dropWhile_cons] at h
      by_cases ha : p a = true
      · rw [if_pos ha] at h
        exact ih x xs h
      · rw [if_neg ha] at h
        obtain ⟨rfl, -⟩ := List.cons.inj h
        exact Bool.not_eq_true _ ▸ Bool.of_not_eq_true ha

/-- Provenance of the fold: as long as every processed line with a
parsable depth is fully well formed (score and pv also parse), the final
state is either untouched, or every one of its score/pv/mate/depth
components comes from one single processed line.  Lines without a parsable
depth are skipped and need not be well formed. -/
theorem foldl_parseEvalStep_provenance (ls : List String) :
    ∀ st : EvalScan,
      (∀ l ∈ ls, (extractInt l "depth").isSome = true → lineWF l = true) →
      List.foldl parseEvalStep st ls = st ∨
      ∃ l ∈ ls,
        extractInt l "depth" = some ((List.foldl parseEvalStep st ls).depth) ∧
        (List.foldl parseEvalStep st ls).bestEval = lineScore l ∧
        (List.foldl parseEvalStep st ls).pv = linePv l ∧
        (List.foldl parseEvalStep st ls).mate = mateMatch l := by
  induction ls with
  | nil => intro st _; left; rfl
  | cons l ls ih =>
      intro st hwf
      have hwf' : ∀ x ∈ ls, (extractInt x "depth").isSome = true → lineWF x = true :=
        fun x hx => hwf x (List.mem_cons_of_mem l hx)
      cases hd : extractInt l "depth" with
      | none =>
          rw [List.foldl_cons, parseEvalStep_skip_none st l hd]
          exact (ih st hwf').imp id
            (fun h => h.elim (fun l' hp =>
              ⟨l', List.mem_cons_of_mem l hp.1, hp.2⟩))
      | some d =>
          have hwl : lineWF l = true :=
            hwf l (List.mem_cons_self l ls) (by simp [hd])
          by_cases hlt : d < st.depth
          · rw [List.foldl_cons, parseEvalStep_skip_low st l d hd hlt]
            exact (ih st hwf').imp id
              (fun h => h.elim (fun l' hp =>
                ⟨l', List.mem_cons_of_mem l hp.1, hp.2⟩))
          · rw [List.foldl_cons, parseEvalStep_apply st l d hd hlt hwl]
            rcases ih ⟨lineScore l, mateMatch l, linePv l, d⟩ hwf' with h |
              ⟨l', hm, hp⟩
            · right
              refine ⟨l, List.mem_cons_self l ls, ?_⟩
              rw [h]
              exact ⟨hd, rfl, rfl, rfl⟩
            · right
              exact ⟨l', List.mem_cons_of_mem l hm, hp⟩

/-- A line that starts with `info` does not start with `bestmove`. -/
theorem info_not_bestmove (s : List Char)
    (h : matchesAt "info".data s = true) :
    matchesAt "bestmove".data s = false := by
  have h1 : "info".data = ['i', 'n', 'f', 'o'] := rfl
  have h2 : "bestmove".data = ['b', 'e', 's', 't', 'm', 'o', 'v', 'e'] := rfl
  rw [h1] at h
  rw [h2]
  cases s with
  | nil => simp [matchesAt] at h
  | cons c cs =>
      simp only [matchesAt, Bool.and_eq_true, beq_iff_eq] at h
      obtain ⟨rfl, -⟩ := h
      simp [matchesAt]

/-- Projections of `parseEvaluation` in terms of the underlying fold. -/
theorem parseEvaluation_scan (lines : List String) :
    (parseEvaluation lines).eval =
      ((lines.filter isScoreLine).reverse.foldl parseEvalStep
        ⟨0, none, [], 0⟩).bestEval ∧
    (parseEvaluation lines).pv =
      ((lines.filter isScoreLine).reverse.foldl parseEvalStep
        ⟨0, none, [], 0⟩).pv ∧
    (parseEvaluation lines).depth =
      ((lines.filter isScoreLine).reverse.foldl parseEvalStep
        ⟨0, none, [], 0⟩).depth ∧
    (parseEvaluation lines).mate =
      ((lines.filter isScoreLine).reverse.foldl parseEvalStep
        ⟨0, none, [], 0⟩).mate :=
  ⟨rfl, rfl, rfl, rfl⟩

-- =========================================================================
-- Claim C9 — mate sentinel conversion
-- =========================================================================

/-- Claim C9 (amended): when an applied info line carries a mate annotation
`m`, the scan of `parseEvaluation` sets the running centipawn eval to
`100000 - m` for `m > 0` and to `-100000 - m` otherwise (and records the
mate distance); this sentinel outranks any finite material evaluation in
the range the pipeline treats as material — for every mate distance
`1 ≤ d ≤ 10000` and every centipawn score `|c| ≤ 10000` (the clamp range of
the win-percent transform), `100000 - d` exceeds `c` and `-100000 + d` is
below `c`. -/
theorem c9_mate_sentinel :
    (∀ (st : EvalScan) (l : String) (d : ℕ) (m : ℤ),
      extractInt l "depth" = some d → ¬ d < st.depth →
      mateMatch l = some m →
      (parseEvalStep st l).bestEval =
        (if m > 0 then 100000 - m else -100000 - m) ∧
      (parseEvalStep st l).mate = some m) ∧
    (∀ d c : ℤ, 1 ≤ d → d ≤ 10000 → -10000 ≤ c → c ≤ 10000 →
      c < 100000 - d ∧ -100000 + d < c) := by
  constructor
  · intro st l d m hdep hlt hm
    cases hp : pvMatch l <;>
      simp [parseEvalStep, hdep, hlt, hm, hp]
  · intro d c h1 h2 h3 h4
    omega

/-- Witness for C9: the sentinel computation on a concrete mate line, and
the bounded outranking at `d = 1`, `c = 10000`. -/
theorem c9_mate_sentinel_witness :
    ((parseEvalStep ⟨0, none, [], 0⟩ "info depth 10 score mate 3").bestEval =
      (if (3 : ℤ) > 0 then 100000 - 3 else -100000 - 3) ∧
     (parseEvalStep ⟨0, none, [], 0⟩ "info depth 10 score mate 3").mate =
       some 3) ∧
    ((10000 : ℤ) < 100000 - 1 ∧ -100000 + 1 < 10000) :=
  ⟨c9_mate_sentinel.1 ⟨0, none, [], 0⟩ "info depth 10 score mate 3" 10 3
      (by decide) (by decide) (by decide),
   c9_mate_sentinel.2 1 10000 (by decide) (by decide) (by decide) (by decide)⟩

/-- Claim C9 counterexample: the parser itself accepts a finite cp score of
100000, which the White mate sentinel `100000 - 1 = 99999` does NOT exceed,
so the sentinel does not outrank EVERY finite cp-scored evaluation. -/
theorem c9_counterexample :
    parseEvaluation ["info depth 10 score mate 1"] =
      ⟨99999, "", [], 10, some 1⟩ ∧
    parseEvaluation ["info depth 10 score cp 100000"] =
      ⟨100000, "", [], 10, none⟩ ∧
    ¬ (100000 : ℤ) < 100000 - 1 := by decide

-- =========================================================================
-- Claim C10 — parser robustness
-- =========================================================================

/-- Claim C10 (amended): `parseEvaluation` is total (it is a function;
no input makes it fail); lines that are not score-bearing info lines, or
whose depth cannot be parsed, are ignored; a score line only replaces the
running state when its reported depth is at least the maximum accepted so
far, and the returned depth dominates the parsable depth of every score
line; when no line parses at all — even when score-bearing info lines are
present but none has a parsable depth — the zero/empty defaults
`eval 0, bestMove "", pv [], depth 0, mate none` are returned; and —
provided every score-bearing info line WITH a parsable depth also carries
a parsable cp or mate score and a pv (`lineWF`; lines whose depth does not
parse are skipped and may be arbitrary) — whenever at least one score line
has a parsable depth, the returned score and principal variation both come
from a single score line of maximal reported depth.  (Without that proviso
a score line with a parsable depth but unparsable score can raise the
depth watermark and leave the defaults in place; see the
counterexample.) -/
theorem c10_parseEvaluation :
    (∀ (l : String) (lines : List String), isScoreLine l = false →
      matchesAt "bestmove".data l.data = false →
      parseEvaluation (l :: lines) = parseEvaluation lines) ∧
    (∀ (l : String) (lines : List String), isScoreLine l = true →
      extractInt l "depth" = none →
      parseEvaluation (l :: lines) = parseEvaluation lines) ∧
    (∀ (st : EvalScan) (l : String) (d : ℕ),
      extractInt l "depth" = some d → d < st.depth →
      parseEvalStep st l = st) ∧
    (∀ (lines : List String) (l : String) (d : ℕ), l ∈ lines →
      isScoreLine l = true → extractInt l "depth" = some d →
      d ≤ (parseEvaluation lines).depth) ∧
    (∀ lines : List String,
      (∀ l ∈ lines, isScoreLine l = true → extractInt l "depth" = none) →
      lines.find? (fun l => matchesAt "bestmove".data l.data) = none →
      parseEvaluation lines = ⟨0, "", [], 0, none⟩) ∧
    (∀ lines : List String,
      (∀ l ∈ lines, isScoreLine l = true →
        (extractInt l "depth").isSome = true → lineWF l = true) →
      (∃ l ∈ lines, isScoreLine l = true ∧
        (extractInt l "depth").isSome = true) →
      ∃ l ∈ lines, isScoreLine l = true ∧
        extractInt l "depth" = some ((parseEvaluation lines).depth) ∧
        (parseEvaluation lines).eval = lineScore l ∧
        (parseEvaluation lines).pv = linePv l) := by
  refine ⟨?_, ?_, ?_, ?_, ?_, ?_⟩
  · intro l lines h1 h2
    simp [parseEvaluation, List.filter_cons, h1, List.find?_cons, h2]
  · intro l lines hscore hdep
    have hinfo : matchesAt "info".data l.data = true := by
      have h := hscore
      simp only [isScoreLine, Bool.and_eq_true] at h
      exact h.1
    have hbm : matchesAt "bestmove".data l.data = false :=
      info_not_bestmove l.data hinfo
    simp [parseEvaluation, List.filter_cons, hscore, List.find?_cons, hbm,
      List.reverse_cons, List.foldl_append,
      parseEvalStep_skip_none _ l hdep]
  · intro st l d hd hlt
    exact parseEvalStep_skip_low st l d hd hlt
  · intro lines l d hmem hscore hd
    have hmem' : l ∈ (lines.filter isScoreLine).reverse :=
      List.mem_reverse.mpr (List.mem_filter.mpr ⟨hmem, hscore⟩)
    exact foldl_parseEvalStep_depth_max _ ⟨0, none, [], 0⟩ l hmem' d hd
  · intro lines hnodep hfind
    have hall : ∀ x ∈ (lines.filter isScoreLine).reverse,
        extractInt x "depth" = none := by
      intro x hx
      have hm := List.mem_filter.mp (List.mem_reverse.mp hx)
      exact hnodep x hm.1 hm.2
    have hscan := foldl_parseEvalStep_skip_all
      (lines.filter isScoreLine).reverse ⟨0, none, [], 0⟩ hall
    simp [parseEvaluation, hfind, hscan]
  · intro lines hWF hex
    obtain ⟨lstar, hstarmem, hstarscore, hstardep⟩ := hex
    have hls : ∀ x ∈ (lines.filter isScoreLine).reverse,
        (extractInt x "depth").isSome = true → lineWF x = true := by
      intro x hx hdep
      have hm := List.mem_filter.mp (List.mem_reverse.mp hx)
      exact hWF x hm.1 hm.2 hdep
    have hstarls : lstar ∈ (lines.filter isScoreLine).reverse :=
      List.mem_reverse.mpr (List.mem_filter.mpr ⟨hstarmem, hstarscore⟩)
    -- split the processed lines at the first one with a parsable depth
    have hsplit :
        (lines.filter isScoreLine).reverse.takeWhile
            (fun l => (extractInt l "depth").isNone) ++
          (lines.filter isScoreLine).reverse.dropWhile
            (fun l => (extractInt l "depth").isNone) =
          (lines.filter isScoreLine).reverse :=
      List.takeWhile_append_dropWhile _ _
    have hdropne : (lines.filter isScoreLine).reverse.dropWhile
        (fun l => (extractInt l "depth").isNone) ≠ [] := by
      intro hnil
      have hall := List.dropWhile_eq_nil_iff.mp hnil lstar hstarls
      simp only [Option.isNone_iff_eq_none] at hall
      rw [hall] at hstardep
      simp at hstardep
    obtain ⟨l0, rest, hdrop⟩ := List.exists_cons_of_ne_nil hdropne
    have hl0p := dropWhile_head_false
      (fun l => (extractInt l "depth").isNone) _ l0 rest hdrop
    obtain ⟨d0, hd0⟩ : ∃ d, extractInt l0 "depth" = some d := by
      simp only [Option.isNone_eq_false_iff, Option.isSome_iff_exists] at hl0p
      exact hl0p
    have hl0ls : l0 ∈ (lines.filter isScoreLine).reverse := by
      rw [← hsplit, hdrop]
      exact List.mem_append_right _ (List.mem_cons_self l0 rest)
    have hwl0 : lineWF l0 = true := hls l0 hl0ls (by simp [hd0])
    have htake : ∀ x ∈ (lines.filter isScoreLine).reverse.takeWhile
        (fun l => (extractInt l "depth").isNone),
        extractInt x "depth" = none := by
      intro x hx
      have := List.mem_takeWhile_imp hx
      simpa only [Option.isNone_iff_eq_none] using this
    have hrestwf : ∀ x ∈ rest,
        (extractInt x "depth").isSome = true → lineWF x = true := by
      intro x hx
      have hxls : x ∈ (lines.filter isScoreLine).reverse := by
        rw [← hsplit, hdrop]
        exact List.mem_append_right _ (List.mem_cons_of_mem l0 hx)
      exact hls x hxls
    have hstep : parseEvalStep ⟨0, none, [], 0⟩ l0 =
        ⟨lineScore l0, mateMatch l0, linePv l0, d0⟩ :=
      parseEvalStep_apply _ l0 d0 hd0 (Nat.not_lt_zero d0) hwl0
    have hfold : (lines.filter isScoreLine).reverse.foldl parseEvalStep
        ⟨0, none, [], 0⟩ =
        rest.foldl parseEvalStep ⟨lineScore l0, mateMatch l0, linePv l0, d0⟩ := by
      conv_lhs => rw [← hsplit, hdrop]
      rw [List.foldl_append,
        foldl_parseEvalStep_skip_all _ ⟨0, none, [], 0⟩ htake,
        List.foldl_cons, hstep]
    have hproj := parseEvaluation_scan lines
    rcases foldl_parseEvalStep_provenance rest
        ⟨lineScore l0, mateMatch l0, linePv l0, d0⟩ hrestwf with h | ⟨l', hm', hp'⟩
    · have hl0m := List.mem_filter.mp (List.mem_reverse.mp hl0ls)
      refine ⟨l0, hl0m.1, hl0m.2, ?_, ?_, ?_⟩
      · rw [hproj.2.2.1, hfold, h]
        exact hd0
      · rw [hproj.1, hfold, h]
      · rw [hproj.2.1, hfold, h]
    · have hmA : l' ∈ (lines.filter isScoreLine).reverse := by
        rw [← hsplit, hdrop]
        exact List.mem_append_right _ (List.mem_cons_of_mem l0 hm')
      have hmB := List.mem_filter.mp (List.mem_reverse.mp hmA)
      refine ⟨l', hmB.1, hmB.2, ?_, ?_, ?_⟩
      · rw [hproj.2.2.1, hfold]
        exact hp'.1
      · rw [hproj.1, hfold]
        exact hp'.2.1
      · rw [hproj.2.1, hfold]
        exact hp'.2.2.1

/-- Witness for C10 on concrete inputs: a chatty non-score line is
ignored, an unparsable-depth score line is ignored, a lower-depth line
does not overwrite, a list whose only score line has no parsable depth
falls back to the defaults, and provenance holds on the mixed input
`["info depth 5 score cp 7 pv e2e4", "info depth x score cp 9"]` whose
second line is malformed (no parsable depth) while the first is fully
parsable. -/
theorem c10_parseEvaluation_witness :
    parseEvaluation ["chatter", "info depth 5 score cp 7 pv e2e4"] =
      parseEvaluation ["info depth 5 score cp 7 pv e2e4"] ∧
    parseEvaluation ["info depth x score cp 9",
        "info depth 5 score cp 7 pv e2e4"] =
      parseEvaluation ["info depth 5 score cp 7 pv e2e4"] ∧
    parseEvalStep ⟨7, none, ["e2e4"], 5⟩ "info depth 3 score cp 1 pv a2a3" =
      ⟨7, none, ["e2e4"], 5⟩ ∧
    parseEvaluation ["info depth x score cp 9"] = ⟨0, "", [], 0, none⟩ ∧
    (∃ l ∈ ["info depth 5 score cp 7 pv e2e4",
        "info depth x score cp 9"], isScoreLine l = true ∧
      extractInt l "depth" =
        some ((parseEvaluation ["info depth 5 score cp 7 pv e2e4",
          "info depth x score cp 9"]).depth) ∧
      (parseEvaluation ["info depth 5 score cp 7 pv e2e4",
        "info depth x score cp 9"]).eval = lineScore l ∧
      (parseEvaluation ["info depth 5 score cp 7 pv e2e4",
        "info depth x score cp 9"]).pv = linePv l) :=
  ⟨c10_parseEvaluation.1 "chatter" _ (by decide) (by decide),
   c10_parseEvaluation.2.1 "info depth x score cp 9" _ (by decide) (by decide),
   c10_parseEvaluation.2.2.1 ⟨7, none, ["e2e4"], 5⟩
     "info depth 3 score cp 1 pv a2a3" 3 (by decide) (by decide),
   c10_parseEvaluation.2.2.2.2.1 ["info depth x score cp 9"] (by decide)
     (by decide),
   c10_parseEvaluation.2.2.2.2.2
     ["info depth 5 score cp 7 pv e2e4", "info depth x score cp 9"]
     (by decide) (by decide)⟩

/-- Claim C10 counterexample: on
`["info depth 3 score cp 7 pv e2e4", "info depth 9 score xyz"]` the second
line is a score-bearing info line with parsable depth 9 but no parsable
score, so it raises the depth watermark and the first (only parsable) score
line is discarded: the returned eval is the default 0 and the pv is empty,
so the returned score does NOT come from a line of maximal depth among the
parsable score lines. -/
theorem c10_counterexample :
    parseEvaluation ["info depth 3 score cp 7 pv e2e4",
        "info depth 9 score xyz"] = ⟨0, "", [], 9, none⟩ ∧
    cpMatch "info depth 3 score cp 7 pv e2e4" = some 7 ∧
    mateMatch "info depth 3 score cp 7 pv e2e4" = none ∧
    cpMatch "info depth 9 score xyz" = none ∧
    mateMatch "info depth 9 score xyz" = none ∧
    isScoreLine "info depth 9 score xyz" = true ∧
    (0 : ℤ) ≠ 7 := by decide
